import Mathlib

/-!
Verification development for the 3DJoists repository.

Two subsystems are embedded here, straight from the JavaScript sources:

* the mesh consolidation engine of `src/common/openCascadeHelper.js`
  (`tessellate`, `joinPrimitives`) together with the triangle-count
  reduction of `src/common/scene.js` and the index-width selection of the
  modern `visualize` path;
* the variant cache of
  `src/demos/WhatIfTheJoistsAreDifferentButFastToo/WhatIfTheJoistsAreDifferentButFastToo.js`
  (`initializeJoistLibrary`, `instantiateJoistFromLibrary`,
  `getLibraryStats`).

Modelling conventions: JavaScript numbers holding integer index or counter
values are `Nat`/`Int` (all arithmetic in the sources stays far below
2^53, where doubles are exact); coordinate values are `Float` and are only
ever copied, never computed with; growing a JS array by assigning at index
`length` is list append; the module-global `JOIST_LIBRARY` `Map` is passed
explicitly as an association list with JS `Map.set`/`Map.get` semantics
(insertion order kept, `set` on a present key replaces in place).
-/

/-- A point or direction with three coordinates, as handed over by the CAD
kernel (`gp_Pnt` / `gp_Dir` after `Transformed`). -/
structure Pnt where
  x : Float
  y : Float
  z : Float

/-- The per-face triangulation record exposed by the kernel
(`Poly_Triangulation`): node points, one normal direction per node (what
`StdPrs_ToolTriangulatedShape.Normal` fills in), and 1-based node-index
triples for the triangles. -/
structure Triangulation where
  nodes : List Pnt
  normals : List Pnt
  triangles : List (Int × Int × Int)

/-- The kernel's `TopAbs_Orientation` enumeration. -/
inductive TopAbs_Orientation where
  | forward
  | reversed
  | internal
  | external
deriving DecidableEq

/-- One face as seen by the explorer loop of `tessellate`: its (possibly
absent) triangulation record, the location transform applied to points and
directions, and the orientation flag. -/
structure KFace where
  triangulation : Option Triangulation
  location : Pnt → Pnt
  orientation : TopAbs_Orientation

/-- The `this_face` record built by `tessellate`
(openCascadeHelper.js lines 66-71). -/
structure FaceData where
  vertex_coord : List Float
  normal_coord : List Float
  tri_indexes : List Int
  number_of_triangles : Nat

instance : Inhabited FaceData := ⟨⟨[], [], [], 0⟩⟩

/-- A face's node count: its vertex buffer holds three coordinates per
node. -/
def nodeCount (f : FaceData) : Nat := f.vertex_coord.length / 3

/-- The face data `tessellate` extracts from one face whose triangulation
is present (openCascadeHelper.js lines 66-133): transformed vertex
coordinates, transformed normals, and the triangle index triples with the
first two entries swapped when the face orientation is not
`TopAbs_FORWARD`.  The stored index values are the kernel's values,
exactly as read: no 1-based-to-0-based shift happens here. -/
def faceDataOf (face : KFace) (t : Triangulation) : FaceData :=
  { vertex_coord := t.nodes.flatMap fun p =>
      let q := face.location p
      [q.x, q.y, q.z]
    normal_coord := t.normals.flatMap fun p =>
      let q := face.location p
      [q.x, q.y, q.z]
    tri_indexes := t.triangles.flatMap fun tr =>
      if face.orientation ≠ TopAbs_Orientation.forward
      then [tr.2.1, tr.1, tr.2.2]
      else [tr.1, tr.2.1, tr.2.2]
    number_of_triangles := t.triangles.length }

/-- The face loop of `tessellate` (openCascadeHelper.js lines 38-137): a
face without triangulation data is skipped, every other face contributes
its extracted data, in traversal order.  No kernel object acquired along
the way is ever released; the call sequence is modelled separately by
`tessellateTrace`. -/
def tessellateStep (facelist : List FaceData) (face : KFace) : List FaceData :=
  match face.triangulation with
  | none => facelist
  | some t => facelist ++ [faceDataOf face t]

def tessellate (shape : List KFace) : List FaceData :=
  shape.foldl tessellateStep []

/-- The total-triangle-count reduction of `scene.js` lines 406-408. -/
def totTriangleCount (facelist : List FaceData) : Nat :=
  facelist.foldl (fun a b => a + b.number_of_triangles) 0

/-- One copy loop of `joinPrimitives`: `for (x = 0; x < src.length / 3; x++)`
reading `src[3x]`, `src[3x+1]`, `src[3x+2]` and pushing `g` of each value.
With `g = id` this is the vertex/normal copy (lines 163-176), with
`g = (· + advance - 1)` the index copy (lines 179-185).  The loop bound is
the floor of `length / 3`, and every read `3x+j` with `x < length / 3`,
`j < 3` is in bounds, so the `default` of `getD` is never produced. -/
def copyLoop {α β : Type} [Inhabited α] (g : α → β) (src : List α) : List β :=
  (List.range (src.length / 3)).flatMap fun x =>
    [g (src.getD (3 * x) default), g (src.getD (3 * x + 1) default),
     g (src.getD (3 * x + 2) default)]

/-- The index rebasing of `joinPrimitives` lines 179-185: every stored
entry is the face-local index plus the running vertex offset minus one. -/
def rebasedTriples (src : List Int) (advance : Nat) : List Int :=
  copyLoop (fun n => n + (advance : Int) - 1) src

/-- The mutable locals of `joinPrimitives` (lines 151-158). -/
structure JoinState where
  obP : Nat
  obN : Nat
  obTR : Nat
  advance : Nat
  locVertexcoord : List Float
  locNormalcoord : List Float
  locTriIndices : List Int

/-- One iteration of the `facelist.forEach` body of `joinPrimitives`
(lines 161-189): copy the face's vertices and normals, copy its indices
shifted by `advance - 1`, and only then set `advance` to the new vertex
counter `obP`.  Writes at position `obP*3+k` land at the end of the list
because `obP` counts exactly the triples already stored. -/
def joinFace (s : JoinState) (myface : FaceData) : JoinState :=
  { obP := s.obP + myface.vertex_coord.length / 3
    obN := s.obN + myface.normal_coord.length / 3
    obTR := s.obTR + myface.tri_indexes.length / 3
    advance := s.obP + myface.vertex_coord.length / 3
    locVertexcoord := s.locVertexcoord ++ copyLoop id myface.vertex_coord
    locNormalcoord := s.locNormalcoord ++ copyLoop id myface.normal_coord
    locTriIndices := s.locTriIndices ++ rebasedTriples myface.tri_indexes s.advance }

/-- The consolidation function `joinPrimitives`
(openCascadeHelper.js lines 150-192). -/
def joinPrimitives (facelist : List FaceData) : List Float × List Float × List Int :=
  let s := facelist.foldl joinFace ⟨0, 0, 0, 0, [], [], []⟩
  (s.locVertexcoord, s.locNormalcoord, s.locTriIndices)

/-- The merged index sequence, face by face: each face's triples rebased by
the node count accumulated over all earlier faces. -/
def mergedTri : Nat → List FaceData → List Int
  | _, [] => []
  | adv, f :: rest =>
      rebasedTriples f.tri_indexes adv ++ mergedTri (adv + f.vertex_coord.length / 3) rest

/-- Node count accumulated over the faces before position `k`. -/
def offsetBefore (facelist : List FaceData) (k : Nat) : Nat :=
  ((facelist.take k).map nodeCount).sum
/-- A two-face sample for the consolidation claims: 4 nodes with two
triangles, then 3 nodes with one triangle, indices 1-based into the owning
face's nodes. -/
def wFaceA : FaceData := ⟨List.replicate 12 0, List.replicate 12 0, [1, 2, 3, 2, 3, 4], 2⟩

/-- The second sample face. -/
def wFaceB : FaceData := ⟨List.replicate 9 0, List.replicate 9 0, [3, 1, 2], 1⟩

/-- The sample face list fed to `joinPrimitives`. -/
def wFacelist : List FaceData := [wFaceA, wFaceB]

/-- A one-face shape without triangulation data. -/
def wEmptyShape : List KFace := [⟨none, id, TopAbs_Orientation.forward⟩]

/-- A three-node, one-triangle kernel triangulation; the triangle
references the nodes 1, 2, 3 (1-based, as the kernel does). -/
def wTri : Triangulation :=
  ⟨[⟨0, 0, 0⟩, ⟨1, 0, 0⟩, ⟨0, 1, 0⟩], [⟨0, 0, 1⟩, ⟨0, 0, 1⟩, ⟨0, 0, 1⟩], [(1, 2, 3)]⟩

/-- A shape holding one forward face carrying `wTri`. -/
def wShapeFwd : List KFace := [⟨some wTri, id, TopAbs_Orientation.forward⟩]

/-- A reversed face carrying `wTri`. -/
def wFaceRev : KFace := ⟨some wTri, id, TopAbs_Orientation.reversed⟩

/-- A shape holding the reversed face. -/
def wShapeRev : List KFace := [wFaceRev]

/-- Kernel objects acquired per face by `tessellate`
(openCascadeHelper.js): the `TopLoc_Location_1` (line 55), the
triangulation handle returned by `BRep_Tool.Triangulation` (line 58), the
`Poly_Connect_2` helper (line 74) and the `TColgp_Array1OfDir_2` normal
array (line 92). -/
inductive KernelResource where
  | location
  | triangulationHandle
  | polyConnect
  | normalArray
deriving DecidableEq

/-- An acquisition or release of a kernel object. -/
inductive KernelEvent where
  | acquire (r : KernelResource)
  | release (r : KernelResource)
deriving DecidableEq

/-- Tests whether an event is a release. -/
def isRelease : KernelEvent → Bool
  | .release _ => true
  | .acquire _ => false

/-- The kernel-object events of one iteration of the face loop of
`tessellate`, in source order: the location is constructed (line 55), the
triangulation handle is obtained (line 58); on a null handle the loop
continues straight away (lines 61-63), otherwise the connectivity helper
(line 74) and the normal array (line 92) are constructed.  The function
body contains no `delete` call, so no release event ever occurs — neither
on the skip path nor after extraction. -/
def traceFace (face : KFace) : List KernelEvent :=
  [.acquire .location, .acquire .triangulationHandle] ++
    match face.triangulation with
    | none => []
    | some _ => [.acquire .polyConnect, .acquire .normalArray]

/-- The kernel-object event trace of the whole face loop of
`tessellate`. -/
def tessellateTrace (shape : List KFace) : List KernelEvent :=
  shape.flatMap traceFace

/-- The element width of the index buffer chosen by `visualize`
(part_001): `Uint16Array` or `Uint32Array`. -/
inductive IndexWidth where
  | u16
  | u32
deriving DecidableEq

/-- Storing an integer into a JS typed array: `Uint16Array` keeps the
value modulo 2^16 (ToUint16), `Uint32Array` modulo 2^32 (ToUint32). -/
def storeIndex : IndexWidth → Int → Int
  | .u16, v => v.emod 65536
  | .u32, v => v.emod 4294967296

/-- The triangle-index extraction of `visualize` (part_001 lines 132-170):
the index array is `Uint32Array` when `triangles.Length() * 3 > 65535` and
`Uint16Array` otherwise (lines 139-145, despite the comment there saying
the choice is by vertex count); each triangle's indices are read, the
first two are swapped for non-forward faces, and the 0-based values
`n - 1` are written into the chosen typed array. -/
def visualizeFaceIndices (t : Triangulation) (orient : TopAbs_Orientation) :
    IndexWidth × List Int :=
  let triLength := t.triangles.length * 3
  let w := if triLength > 65535 then IndexWidth.u32 else IndexWidth.u16
  (w, t.triangles.flatMap fun tr =>
    let s := if orient ≠ TopAbs_Orientation.forward
      then (tr.2.1, tr.1, tr.2.2)
      else (tr.1, tr.2.1, tr.2.2)
    [storeIndex w (s.1 - 1), storeIndex w (s.2.1 - 1), storeIndex w (s.2.2 - 1)])

/-- A triangulation with 70,000 nodes and a single triangle referencing
node 70,000: its index array length is 3, far below the 65,535 element
threshold, while its vertex count is far above 65,535. -/
def wTriBig : Triangulation :=
  ⟨List.replicate 70000 ⟨0, 0, 0⟩, List.replicate 70000 ⟨0, 0, 1⟩, [(1, 2, 70000)]⟩

/-- The metadata record stored with variant `i`
(WhatIfTheJoistsAreDifferentButFastToo.js lines 38-44). -/
structure Metadata where
  length : Nat
  depth : Nat
  pattern : String
  revision : Nat
  loadRating : Nat
deriving DecidableEq

/-- One library entry: a shared reference to the pre-tessellated geometry
(the same value for every variant) plus the variant's metadata.  The
geometry type is a parameter; equality of `geometry` fields models
reference identity, since the build loop stores the one
`tessellatedGeometry` object everywhere. -/
structure LibEntry (G : Type) where
  geometry : G
  metadata : Metadata

/-- The record `instantiateJoistFromLibrary` returns (lines 156-160). -/
structure JoistInstance (G : Type) where
  geometry : G
  metadata : Metadata
  variantId : String

/-- The record `getLibraryStats` returns (lines 164-173). -/
structure LibraryStats where
  totalVariants : Nat
  memoryFootprint : String
  lengthRange : String
  depthRange : String
  webPatterns : String
  designRevisions : String

/-- JS `Map.get`: the value stored under the key, if present. -/
def mapGet {α : Type} : List (String × α) → String → Option α
  | [], _ => none
  | (k, v) :: rest, key => if k = key then some v else mapGet rest key

/-- JS `Map.set`: replace in place when the key is present (insertion
order kept), append otherwise. -/
def mapSet {α : Type} : List (String × α) → String → α → List (String × α)
  | [], key, val => [(key, val)]
  | (k, v) :: rest, key, val =>
      if k = key then (key, val) :: rest else (k, v) :: mapSet rest key val

/-- The variant identifier derived at build time for loop index `i`
(line 35): `JOIST_${floor(i/20)+40}FT_${30+(i%8)*3}D_PAT${i%50}_REV${floor(i/100)}`. -/
def variantKey (i : Nat) : String :=
  "JOIST_" ++ toString (i / 20 + 40) ++ "FT_" ++ toString (30 + (i % 8) * 3) ++
    "D_PAT" ++ toString (i % 50) ++ "_REV" ++ toString (i / 100)

/-- The metadata built for loop index `i` (lines 38-44). -/
def metadataOf (i : Nat) : Metadata :=
  { length := (i / 20 + 40) * 12
    depth := 30 + (i % 8) * 3
    pattern := "WebPattern_" ++ toString (i % 50)
    revision := i / 100
    loadRating := 50 + (i % 30) * 5 }

/-- The library-population loop of `initializeJoistLibrary` run for the
first `n` loop indices, starting from the empty map. -/
def buildLibrary {G : Type} (g : G) (n : Nat) : List (String × LibEntry G) :=
  (List.range n).foldl (fun m i => mapSet m (variantKey i) ⟨g, metadataOf i⟩) []

/-- The build phase of `initializeJoistLibrary` (lines 34-46): a single
tessellated geometry `g` is stored under 1000 derived variant identifiers,
each with its own metadata.  The kernel-side template construction and the
tessellation itself are outside this model; `g` stands for the one
`tessellatedGeometry` reference they produce.  Neither
`instantiateJoistFromLibrary` nor `getLibraryStats` contains a `set` or
`delete` on `JOIST_LIBRARY`, so the built map is passed to them below as
an immutable value. -/
def initializeJoistLibrary {G : Type} (g : G) : List (String × LibEntry G) :=
  buildLibrary g 1000

/-- The position hash of `instantiateJoistFromLibrary` (line 141):
`(joistIndex * 7 + bayIndex * 23 + floorIndex * 41) % 1000` with the JS
`%`, which truncates toward zero and follows the dividend's sign
(`Int.tmod`). -/
def structuralHash (joistIndex bayIndex floorIndex : Int) : Int :=
  (joistIndex * 7 + bayIndex * 23 + floorIndex * 41).tmod 1000

/-- The variant identifier reconstructed at lookup time from the hash
(lines 142-147); `Math.floor` of a JS division is `Int.fdiv`, JS `%` is
`Int.tmod`. -/
def variantIdOfHash (h : Int) : String :=
  "JOIST_" ++ toString (h.fdiv 20 + 40) ++ "FT_" ++ toString (30 + h.tmod 8 * 3) ++
    "D_PAT" ++ toString (h.tmod 50) ++ "_REV" ++ toString (h.fdiv 100)

/-- The message of the error thrown on a missing variant (line 151). -/
def notFoundMessage (variantId : String) : String :=
  "Joist variant " ++ variantId ++ " not found in library"

/-- The lookup `instantiateJoistFromLibrary` (lines 135-161): derive the
hash and the variant identifier, fetch the entry, throw when it is absent
(modelled as `Except.error`), otherwise return geometry, metadata and
identifier.  The function never writes to the library. -/
def instantiateJoistFromLibrary {G : Type} (lib : List (String × LibEntry G))
    (joistIndex bayIndex floorIndex : Int) : Except String (JoistInstance G) :=
  let variantId := variantIdOfHash (structuralHash joistIndex bayIndex floorIndex)
  match mapGet lib variantId with
  | none => .error (notFoundMessage variantId)
  | some entry => .ok ⟨entry.geometry, entry.metadata, variantId⟩

/-- The read-only statistics of `getLibraryStats` (lines 164-173);
`(size * 2).toFixed(1)` of an integer size prints as the integer followed
by `.0`. -/
def getLibraryStats {G : Type} (lib : List (String × LibEntry G)) : LibraryStats :=
  { totalVariants := lib.length
    memoryFootprint := "~" ++ toString (lib.length * 2) ++ ".0MB"
    lengthRange := "40-89 feet"
    depthRange := "30-51 inches"
    webPatterns := "50 unique patterns"
    designRevisions := "10 revisions" }

/-- The numeric value of a decimal digit character. -/
def digitVal (c : Char) : Nat := c.toNat - 48

/-- Recovers the loop index from its length category quotient `q = i / 20`
and pattern residue `c = i % 50`: the remainder of `i` against 20 is
determined by `c` and `20 * q` because it is below 50. -/
def reconIndex (q c : Nat) : Nat := 20 * q + ((c + 50 - (20 * q) % 50) % 50)

/-- Reads the loop index back out of a build-time variant identifier:
positions 6-7 hold the two-digit length category (40-89), and the pattern
number starts at position 18, one digit when the string has 24 characters,
two when it has 25. -/
def keyExtract (s : String) : Nat :=
  let l := s.data
  let lenCat := digitVal (l.getD 6 ' ') * 10 + digitVal (l.getD 7 ' ')
  let pat := if l.length = 24 then digitVal (l.getD 18 ' ')
    else digitVal (l.getD 18 ' ') * 10 + digitVal (l.getD 19 ' ')
  reconIndex (lenCat - 40) pat

/-- Tests the shape every build-time identifier has and no identifier
derived from a negative hash can have: digits at positions 6 and 7 whose
two-digit value is at least 40. -/
def looksLikeLibraryKey (s : String) : Bool :=
  let a := s.data.getD 6 ' '
  let b := s.data.getD 7 ' '
  a.isDigit && b.isDigit && decide (40 ≤ digitVal a * 10 + digitVal b)
theorem copyLoop_nil {α β : Type} [Inhabited α] (g : α → β) : copyLoop g [] = [] := by
  simp [copyLoop]

theorem getD_cons3 {α : Type} [Inhabited α] (a b c : α) (rest : List α) (k : Nat) :
    (a :: b :: c :: rest).getD (k + 3) default = rest.getD k default := by
  have h : k + 3 = k + 1 + 1 + 1 := by omega
  rw [h, List.getD_cons_succ, List.getD_cons_succ, List.getD_cons_succ]

theorem copyLoop_cons3 {α β : Type} [Inhabited α] (g : α → β) (a b c : α) (rest : List α) :
    copyLoop g (a :: b :: c :: rest) = g a :: g b :: g c :: copyLoop g rest := by
  unfold copyLoop
  have hlen : (a :: b :: c :: rest).length / 3 = rest.length / 3 + 1 := by
    simp [List.length_cons]
    omega
  rw [hlen, List.range_succ_eq_map, List.flatMap_cons, List.flatMap_map]
  rfl

theorem copyLoop_short {α β : Type} [Inhabited α] (g : α → β) (src : List α)
    (h : src.length < 3) : copyLoop g src = [] := by
  unfold copyLoop
  have : src.length / 3 = 0 := Nat.div_eq_of_lt h
  simp [this]

/-- The copy loop reproduces the source list (mapped through `g`) whenever
the source length is a multiple of three, which is the case for every
buffer `tessellate` produces. -/
theorem copyLoop_eq_map {α β : Type} [Inhabited α] (g : α → β) (src : List α)
    (h : 3 ∣ src.length) : copyLoop g src = src.map g := by
  match src with
  | [] => simp [copyLoop]
  | [a] => exact absurd h (by norm_num)
  | [a, b] => exact absurd h (by norm_num)
  | a :: b :: c :: rest =>
      have hr : 3 ∣ rest.length := by
        simp [List.length_cons] at h
        omega
      rw [copyLoop_cons3, copyLoop_eq_map g rest hr]
      simp

theorem copyLoop_length {α β : Type} [Inhabited α] (g : α → β) (src : List α) :
    (copyLoop g src).length = 3 * (src.length / 3) := by
  unfold copyLoop
  rw [List.length_flatMap]
  have hconst :
      List.map
        (List.length ∘ fun x =>
          [g (src.getD (3 * x) default), g (src.getD (3 * x + 1) default),
           g (src.getD (3 * x + 2) default)])
        (List.range (src.length / 3)) =
      List.map (fun _ => 3) (List.range (src.length / 3)) :=
    List.map_congr_left fun x _ => rfl
  rw [hconst]
  simp [List.map_const, List.sum_replicate, Nat.mul_comm]

theorem copyLoop_mem {α β : Type} [Inhabited α] {g : α → β} {src : List α} {y : β}
    (h : y ∈ copyLoop g src) : ∃ x ∈ src, y = g x := by
  unfold copyLoop at h
  obtain ⟨k, hk, hy⟩ := List.mem_flatMap.mp h
  have hklt : k < src.length / 3 := List.mem_range.mp hk
  have hb : ∀ j, j < 3 → 3 * k + j < src.length := by
    intro j hj
    have := Nat.div_mul_le_self src.length 3
    have : 3 * (k + 1) ≤ 3 * (src.length / 3) := by omega
    have := Nat.mul_div_le src.length 3
    omega
  have hget : ∀ j, j < 3 → src.getD (3 * k + j) default ∈ src := by
    intro j hj
    rw [List.getD_eq_getElem _ _ (hb j hj)]
    exact List.getElem_mem _
  simp only [List.mem_cons, List.not_mem_nil, or_false] at hy
  rcases hy with hy | hy | hy
  · exact ⟨src.getD (3 * k) default, by simpa using hget 0 (by omega), hy⟩
  · exact ⟨src.getD (3 * k + 1) default, hget 1 (by omega), hy⟩
  · exact ⟨src.getD (3 * k + 2) default, hget 2 (by omega), hy⟩

/-- Running `joinPrimitives` from any state whose `advance` equals its
vertex counter appends the faces' copied buffers, with each face's indices
rebased by the vertex count accumulated up to that face. -/
theorem foldl_joinFace_spec (facelist : List FaceData) :
    ∀ s : JoinState, s.advance = s.obP →
      (facelist.foldl joinFace s).locVertexcoord =
          s.locVertexcoord ++ facelist.flatMap (fun f => copyLoop id f.vertex_coord) ∧
      (facelist.foldl joinFace s).locNormalcoord =
          s.locNormalcoord ++ facelist.flatMap (fun f => copyLoop id f.normal_coord) ∧
      (facelist.foldl joinFace s).locTriIndices =
          s.locTriIndices ++ mergedTri s.obP facelist := by
  induction facelist with
  | nil => intro s _; simp [mergedTri]
  | cons f rest ih =>
      intro s hs
      obtain ⟨h1, h2, h3⟩ := ih (joinFace s f) rfl
      refine ⟨?_, ?_, ?_⟩
      · rw [List.foldl_cons, h1]
        simp [joinFace, List.append_assoc]
      · rw [List.foldl_cons, h2]
        simp [joinFace, List.append_assoc]
      · rw [List.foldl_cons, h3]
        simp only [joinFace, mergedTri, hs, List.append_assoc]

theorem joinPrimitives_eq (facelist : List FaceData) :
    joinPrimitives facelist =
      (facelist.flatMap (fun f => copyLoop id f.vertex_coord),
       facelist.flatMap (fun f => copyLoop id f.normal_coord),
       mergedTri 0 facelist) := by
  obtain ⟨h1, h2, h3⟩ := foldl_joinFace_spec facelist ⟨0, 0, 0, 0, [], [], []⟩ rfl
  simp only [joinPrimitives, h1, h2, h3, List.nil_append]

theorem offsetBefore_zero (facelist : List FaceData) : offsetBefore facelist 0 = 0 := rfl

theorem offsetBefore_cons_succ (f : FaceData) (rest : List FaceData) (k : Nat) :
    offsetBefore (f :: rest) (k + 1) = nodeCount f + offsetBefore rest k := by
  simp [offsetBefore, List.take_succ_cons]

/-- The merged index sequence decomposes into one rebased chunk per face,
the chunk of face `k` rebased by exactly the node count of the faces
before it. -/
theorem mergedTri_eq_chunks (facelist : List FaceData) :
    ∀ adv : Nat, mergedTri adv facelist =
      (List.range facelist.length).flatMap fun k =>
        rebasedTriples (facelist.getD k default).tri_indexes (adv + offsetBefore facelist k) := by
  induction facelist with
  | nil => intro adv; simp [mergedTri]
  | cons f rest ih =>
      intro adv
      rw [mergedTri, ih (adv + f.vertex_coord.length / 3)]
      rw [List.length_cons, List.range_succ_eq_map, List.flatMap_cons, List.flatMap_map]
      have h0 : offsetBefore (f :: rest) 0 = 0 := rfl
      simp only [List.getD_cons_zero, h0, Nat.add_zero]
      congr 1
      apply List.flatMap_congr
      intro k _
      simp only [Function.comp_apply, List.getD_cons_succ, offsetBefore_cons_succ]
      have hnc : nodeCount f = f.vertex_coord.length / 3 := rfl
      congr 1
      omega

/-- C1.  For faces whose buffers are well formed (three coordinates per
node, normals aligned with vertices) and whose triangle indices all refer
to the face's own nodes (the kernel hands them out 1-based, in
`[1, node_count]`), `joinPrimitives` produces vertex and normal sequences
of length `3 * (c1 + ... + cn)`, its merged index sequence is exactly the
concatenation, face by face, of that face's indices rebased by the node
count of all earlier faces (the running offset is applied once per face,
with the value accumulated before that face's own vertices entered), and
every index contributed by face `k` lies in
`[c1 + ... + c(k-1), c1 + ... + ck)`. -/
theorem claim_C1 (facelist : List FaceData)
    (hc : ∀ f ∈ facelist, f.vertex_coord.length = 3 * nodeCount f)
    (hn : ∀ f ∈ facelist, f.normal_coord.length = f.vertex_coord.length)
    (hix : ∀ f ∈ facelist, ∀ e ∈ f.tri_indexes, 1 ≤ e ∧ e ≤ (nodeCount f : Int)) :
    (joinPrimitives facelist).1.length = 3 * (facelist.map nodeCount).sum ∧
    (joinPrimitives facelist).2.1.length = 3 * (facelist.map nodeCount).sum ∧
    (joinPrimitives facelist).2.2 =
      ((List.range facelist.length).flatMap fun k =>
        rebasedTriples (facelist.getD k default).tri_indexes (offsetBefore facelist k)) ∧
    (∀ k, k < facelist.length →
      ∀ e ∈ rebasedTriples (facelist.getD k default).tri_indexes (offsetBefore facelist k),
        (offsetBefore facelist k : Int) ≤ e ∧
          e < offsetBefore facelist k + nodeCount (facelist.getD k default)) := by
  rw [joinPrimitives_eq]
  refine ⟨?_, ?_, ?_, ?_⟩
  · rw [List.length_flatMap]
    have h1 : facelist.map (fun f => (copyLoop id f.vertex_coord).length) =
        facelist.map (fun f => 3 * nodeCount f) := by
      apply List.map_congr_left
      intro f hf
      rw [copyLoop_length, hc f hf]
      omega
    have h2 : List.map (List.length ∘ fun f => copyLoop id f.vertex_coord) facelist =
        facelist.map (fun f => (copyLoop id f.vertex_coord).length) := rfl
    rw [h2, h1, List.sum_map_mul_left]
  · rw [List.length_flatMap]
    have h1 : facelist.map (fun f => (copyLoop id f.normal_coord).length) =
        facelist.map (fun f => 3 * nodeCount f) := by
      apply List.map_congr_left
      intro f hf
      rw [copyLoop_length, hn f hf, hc f hf]
      omega
    have h2 : List.map (List.length ∘ fun f => copyLoop id f.normal_coord) facelist =
        facelist.map (fun f => (copyLoop id f.normal_coord).length) := rfl
    rw [h2, h1, List.sum_map_mul_left]
  · rw [mergedTri_eq_chunks]
    simp
  · intro k hk e he
    obtain ⟨x, hx, rfl⟩ := copyLoop_mem he
    have hmem : facelist.getD k default ∈ facelist := by
      rw [List.getD_eq_getElem _ _ hk]
      exact List.getElem_mem _
    have hb := hix _ hmem x hx
    omega

/-- C1, instantiated on the concrete two-face list. -/
theorem claim_C1_witness :
    ((∀ f ∈ wFacelist, f.vertex_coord.length = 3 * nodeCount f) ∧
     (∀ f ∈ wFacelist, f.normal_coord.length = f.vertex_coord.length) ∧
     (∀ f ∈ wFacelist, ∀ e ∈ f.tri_indexes, 1 ≤ e ∧ e ≤ (nodeCount f : Int))) ∧
    ((joinPrimitives wFacelist).1.length = 3 * (wFacelist.map nodeCount).sum ∧
     (joinPrimitives wFacelist).2.1.length = 3 * (wFacelist.map nodeCount).sum ∧
     (joinPrimitives wFacelist).2.2 =
       ((List.range wFacelist.length).flatMap fun k =>
         rebasedTriples (wFacelist.getD k default).tri_indexes (offsetBefore wFacelist k)) ∧
     (∀ k, k < wFacelist.length →
       ∀ e ∈ rebasedTriples (wFacelist.getD k default).tri_indexes (offsetBefore wFacelist k),
         (offsetBefore wFacelist k : Int) ≤ e ∧
           e < offsetBefore wFacelist k + nodeCount (wFacelist.getD k default))) :=
  ⟨⟨by decide, by decide, by decide⟩,
   claim_C1 wFacelist (by decide) (by decide) (by decide)⟩

/-- C8.  A shape in which no face carries triangulation data tessellates to
the empty face list, consolidates to three empty sequences, and has total
triangle count zero; every function involved is total and returns
normally, so no error arises. -/
theorem claim_C8 (shape : List KFace) (h : ∀ f ∈ shape, f.triangulation = none) :
    tessellate shape = [] ∧
    joinPrimitives (tessellate shape) = ([], [], []) ∧
    totTriangleCount (tessellate shape) = 0 := by
  have key : ∀ (sh : List KFace), (∀ f ∈ sh, f.triangulation = none) →
      ∀ acc : List FaceData, sh.foldl tessellateStep acc = acc := by
    intro sh
    induction sh with
    | nil => intro _ acc; rfl
    | cons face rest ih =>
        intro hall acc
        rw [List.foldl_cons]
        have h1 : face.triangulation = none := hall face (List.mem_cons_self _ _)
        have h2 : tessellateStep acc face = acc := by
          unfold tessellateStep
          rw [h1]
        rw [h2]
        exact ih (fun f hf => hall f (List.mem_cons_of_mem _ hf)) acc
  have hT : tessellate shape = [] := key shape h []
  exact ⟨hT, by rw [hT]; rfl, by rw [hT]; rfl⟩

/-- C8, instantiated on the concrete triangulation-free shape. -/
theorem claim_C8_witness :
    (∀ f ∈ wEmptyShape, f.triangulation = none) ∧
    (tessellate wEmptyShape = [] ∧
     joinPrimitives (tessellate wEmptyShape) = ([], [], []) ∧
     totTriangleCount (tessellate wEmptyShape) = 0) :=
  have h : ∀ f ∈ wEmptyShape, f.triangulation = none := by
    intro f hf
    simp only [wEmptyShape, List.mem_singleton] at hf
    rw [hf]
  ⟨h, claim_C8 wEmptyShape h⟩

/-- Accumulator lemma for the face loop of `tessellate`. -/
theorem tessellate_go (shape : List KFace) :
    ∀ acc : List FaceData, shape.foldl tessellateStep acc = acc ++ tessellate shape := by
  induction shape with
  | nil => intro acc; simp [tessellate]
  | cons face rest ih =>
      intro acc
      unfold tessellate
      rw [List.foldl_cons, List.foldl_cons, ih, ih]
      have hstep : ∀ a : List FaceData, tessellateStep a face = a ++ tessellateStep [] face := by
        intro a
        unfold tessellateStep
        cases face.triangulation <;> simp
      rw [hstep acc, List.append_assoc]

theorem tessellate_cons (face : KFace) (rest : List KFace) :
    tessellate (face :: rest) = tessellateStep [] face ++ tessellate rest := by
  have h : tessellate (face :: rest) = (face :: rest).foldl tessellateStep [] := rfl
  rw [h, List.foldl_cons, tessellate_go]

/-- Membership in the output of `tessellate`: exactly the extracted data
of the faces whose triangulation is present. -/
theorem mem_tessellate (shape : List KFace) (fd : FaceData) :
    fd ∈ tessellate shape ↔
      ∃ face ∈ shape, ∃ t, face.triangulation = some t ∧ fd = faceDataOf face t := by
  induction shape with
  | nil => simp [tessellate]
  | cons face rest ih =>
      rw [tessellate_cons, List.mem_append, ih]
      cases htr : face.triangulation with
      | none =>
          have hstep : tessellateStep [] face = [] := by
            unfold tessellateStep
            rw [htr]
          rw [hstep]
          simp only [List.not_mem_nil, false_or]
          constructor
          · rintro ⟨f, hf, t, ht, hfd⟩
            exact ⟨f, List.mem_cons_of_mem _ hf, t, ht, hfd⟩
          · rintro ⟨f, hf, t, ht, hfd⟩
            rcases List.mem_cons.mp hf with rfl | hf2
            · rw [htr] at ht
              cases ht
            · exact ⟨f, hf2, t, ht, hfd⟩
      | some t0 =>
          have hstep : tessellateStep [] face = [faceDataOf face t0] := by
            unfold tessellateStep
            rw [htr]
            rfl
          rw [hstep]
          simp only [List.mem_singleton]
          constructor
          · rintro (hfd | ⟨f, hf, t, ht, hfd⟩)
            · exact ⟨face, List.mem_cons_self _ _, t0, htr, hfd⟩
            · exact ⟨f, List.mem_cons_of_mem _ hf, t, ht, hfd⟩
          · rintro ⟨f, hf, t, ht, hfd⟩
            rcases List.mem_cons.mp hf with rfl | hf2
            · rw [htr] at ht
              cases ht
              exact Or.inl hfd
            · exact Or.inr ⟨f, hf2, t, ht, hfd⟩

/-- A flat list built from length-3 chunks has length three times the
chunk count. -/
theorem flatMap_chunk3_length {α β : Type} (F : α → List β)
    (hF : ∀ a, (F a).length = 3) (l : List α) :
    (l.flatMap F).length = 3 * l.length := by
  rw [List.length_flatMap]
  have hconst : List.map (List.length ∘ F) l = List.map (fun _ => 3) l :=
    List.map_congr_left fun a _ => hF a
  rw [hconst]
  simp [List.map_const, List.sum_replicate, Nat.mul_comm]

/-- The extracted vertex buffer holds three coordinates per triangulation
node. -/
theorem faceDataOf_vertex_length (face : KFace) (t : Triangulation) :
    (faceDataOf face t).vertex_coord.length = 3 * t.nodes.length := by
  apply flatMap_chunk3_length
  intro a
  rfl

theorem faceDataOf_nodeCount (face : KFace) (t : Triangulation) :
    nodeCount (faceDataOf face t) = t.nodes.length := by
  rw [nodeCount, faceDataOf_vertex_length]
  omega

/-- Positional access into a flat list built from length-3 chunks: the
entry at `3k + j` is entry `j` of chunk `k`. -/
theorem flatMap_chunk3_getD {α β : Type} [Inhabited α] [Inhabited β] (F : α → List β)
    (hF : ∀ a, (F a).length = 3) (l : List α) :
    ∀ k, k < l.length → ∀ j, j < 3 →
      (l.flatMap F).getD (3 * k + j) default = (F (l.getD k default)).getD j default := by
  induction l with
  | nil => intro k hk; simp at hk
  | cons a rest ih =>
      intro k hk j hj
      rw [List.flatMap_cons]
      cases k with
      | zero =>
          have hidx : 3 * 0 + j = j := by omega
          rw [hidx, List.getD_cons_zero]
          rw [List.getD_eq_getElem?_getD, List.getElem?_append_left (by rw [hF a]; omega),
            ← List.getD_eq_getElem?_getD]
      | succ k =>
          have hidx : 3 * (k + 1) + j = (3 * k + j) + (F a).length := by
            rw [hF a]
            omega
          rw [List.getD_eq_getElem?_getD, hidx]
          rw [show (3 * k + j) + (F a).length = (F a).length + (3 * k + j) by omega]
          rw [List.getElem?_append_right (by omega)]
          have hsub : (F a).length + (3 * k + j) - (F a).length = 3 * k + j := by omega
          rw [hsub, ← List.getD_eq_getElem?_getD, List.getD_cons_succ]
          exact ih k (by simpa using hk) j hj

/-- C3.  Every face of the shape whose triangulation is present
contributes its extracted data to the `tessellate` output, and triangle
`k` of that data is exactly the kernel's triple when the face is forward,
and exactly that triple with its first two entries swapped (third
untouched) otherwise. -/
theorem claim_C3 (shape : List KFace) (face : KFace) (t : Triangulation)
    (hmem : face ∈ shape) (ht : face.triangulation = some t) :
    faceDataOf face t ∈ tessellate shape ∧
    ∀ k, k < t.triangles.length →
      ((faceDataOf face t).tri_indexes.getD (3 * k) 0,
       (faceDataOf face t).tri_indexes.getD (3 * k + 1) 0,
       (faceDataOf face t).tri_indexes.getD (3 * k + 2) 0) =
        (if face.orientation = TopAbs_Orientation.forward
         then ((t.triangles.getD k default).1,
               (t.triangles.getD k default).2.1,
               (t.triangles.getD k default).2.2)
         else ((t.triangles.getD k default).2.1,
               (t.triangles.getD k default).1,
               (t.triangles.getD k default).2.2)) := by
  constructor
  · exact (mem_tessellate shape (faceDataOf face t)).mpr ⟨face, hmem, t, ht, rfl⟩
  · intro k hk
    have hchunk : ∀ tr : Int × Int × Int,
        ((fun tr : Int × Int × Int =>
          if face.orientation ≠ TopAbs_Orientation.forward
          then [tr.2.1, tr.1, tr.2.2]
          else [tr.1, tr.2.1, tr.2.2]) tr).length = 3 := by
      intro tr
      by_cases hor : face.orientation = TopAbs_Orientation.forward <;> simp [hor]
    have hpos := flatMap_chunk3_getD _ hchunk t.triangles k hk
    have h0 := hpos 0 (by omega)
    have h1 := hpos 1 (by omega)
    have h2 := hpos 2 (by omega)
    have hz : 3 * k + 0 = 3 * k := by omega
    rw [hz] at h0
    have htri : (faceDataOf face t).tri_indexes = t.triangles.flatMap fun tr =>
        if face.orientation ≠ TopAbs_Orientation.forward
        then [tr.2.1, tr.1, tr.2.2]
        else [tr.1, tr.2.1, tr.2.2] := rfl
    have hd : (default : Int) = 0 := rfl
    rw [htri, ← hd, h0, h1, h2]
    by_cases hor : face.orientation = TopAbs_Orientation.forward <;> simp [hor]

/-- C3, instantiated on a one-triangle reversed face: the emitted triple
swaps the first two kernel indices. -/
theorem claim_C3_witness :
    (wFaceRev ∈ wShapeRev ∧ wFaceRev.triangulation = some wTri) ∧
    (faceDataOf wFaceRev wTri ∈ tessellate wShapeRev ∧
     ∀ k, k < wTri.triangles.length →
       ((faceDataOf wFaceRev wTri).tri_indexes.getD (3 * k) 0,
        (faceDataOf wFaceRev wTri).tri_indexes.getD (3 * k + 1) 0,
        (faceDataOf wFaceRev wTri).tri_indexes.getD (3 * k + 2) 0) =
         (if wFaceRev.orientation = TopAbs_Orientation.forward
          then ((wTri.triangles.getD k default).1,
                (wTri.triangles.getD k default).2.1,
                (wTri.triangles.getD k default).2.2)
          else ((wTri.triangles.getD k default).2.1,
                (wTri.triangles.getD k default).1,
                (wTri.triangles.getD k default).2.2))) :=
  have hmem : wFaceRev ∈ wShapeRev := by
    simp [wShapeRev, List.mem_singleton]
  ⟨⟨hmem, rfl⟩, claim_C3 wShapeRev wFaceRev wTri hmem rfl⟩

/-- C2, corrected.  Under the kernel invariant that every triangle of a
face references nodes `1..c` (`c` the node count), every value
`tessellate` stores in a per-face `tri_indexes` buffer lies in `[1, c]` —
the buffer is 1-based, exactly as read from the kernel; the shift to
0-based indices happens only later, inside `joinPrimitives`, which adds
`advance - 1`. -/
theorem claim_C2_amended (shape : List KFace)
    (hwf : ∀ face ∈ shape, ∀ t, face.triangulation = some t →
      ∀ tr ∈ t.triangles,
        (1 ≤ tr.1 ∧ tr.1 ≤ (t.nodes.length : Int)) ∧
        (1 ≤ tr.2.1 ∧ tr.2.1 ≤ (t.nodes.length : Int)) ∧
        (1 ≤ tr.2.2 ∧ tr.2.2 ≤ (t.nodes.length : Int))) :
    ∀ fd ∈ tessellate shape, ∀ e ∈ fd.tri_indexes,
      1 ≤ e ∧ e ≤ (nodeCount fd : Int) := by
  intro fd hfd
  obtain ⟨face, hface, t, ht, rfl⟩ := (mem_tessellate shape fd).mp hfd
  intro e he
  rw [faceDataOf_nodeCount]
  have he2 : e ∈ t.triangles.flatMap fun tr =>
      if face.orientation ≠ TopAbs_Orientation.forward
      then [tr.2.1, tr.1, tr.2.2]
      else [tr.1, tr.2.1, tr.2.2] := he
  obtain ⟨tr, htr, hetr⟩ := List.mem_flatMap.mp he2
  obtain ⟨⟨h11, h12⟩, ⟨h21, h22⟩, ⟨h31, h32⟩⟩ := hwf face hface t ht tr htr
  by_cases hor : face.orientation = TopAbs_Orientation.forward
  · simp only [hor, ne_eq, not_true_eq_false, if_false, List.mem_cons,
      List.not_mem_nil, or_false] at hetr
    rcases hetr with rfl | rfl | rfl
    · exact ⟨h11, h12⟩
    · exact ⟨h21, h22⟩
    · exact ⟨h31, h32⟩
  · simp only [hor, ne_eq, not_false_eq_true, if_true, List.mem_cons,
      List.not_mem_nil, or_false] at hetr
    rcases hetr with rfl | rfl | rfl
    · exact ⟨h21, h22⟩
    · exact ⟨h11, h12⟩
    · exact ⟨h31, h32⟩

/-- C2, refuting the claim as stated: on a forward face with three nodes
and the single kernel triangle `(1, 2, 3)`, `tessellate` stores the buffer
`[1, 2, 3]`, whose entry 3 does not lie in `[0, 3)` — the per-face buffer
is not 0-based. -/
theorem claim_C2_counterexample :
    ¬ (∀ fd ∈ tessellate wShapeFwd, ∀ e ∈ fd.tri_indexes,
        0 ≤ e ∧ e < (nodeCount fd : Int)) := by decide

/-- C2 corrected, instantiated on the forward three-node face. -/
theorem claim_C2_witness :
    (∀ face ∈ wShapeFwd, ∀ t, face.triangulation = some t →
      ∀ tr ∈ t.triangles,
        (1 ≤ tr.1 ∧ tr.1 ≤ (t.nodes.length : Int)) ∧
        (1 ≤ tr.2.1 ∧ tr.2.1 ≤ (t.nodes.length : Int)) ∧
        (1 ≤ tr.2.2 ∧ tr.2.2 ≤ (t.nodes.length : Int))) ∧
    (∀ fd ∈ tessellate wShapeFwd, ∀ e ∈ fd.tri_indexes,
      1 ≤ e ∧ e ≤ (nodeCount fd : Int)) :=
  have hwf : ∀ face ∈ wShapeFwd, ∀ t, face.triangulation = some t →
      ∀ tr ∈ t.triangles,
        (1 ≤ tr.1 ∧ tr.1 ≤ (t.nodes.length : Int)) ∧
        (1 ≤ tr.2.1 ∧ tr.2.1 ≤ (t.nodes.length : Int)) ∧
        (1 ≤ tr.2.2 ∧ tr.2.2 ≤ (t.nodes.length : Int)) := by
    intro face hface t ht tr htr
    simp only [wShapeFwd, List.mem_singleton] at hface
    subst hface
    injection ht with ht2
    subst ht2
    revert tr htr
    decide
  ⟨hwf, claim_C2_amended wShapeFwd hwf⟩

/-- C9.  Evaluating the call trace of `tessellate` at a one-face shape:
four kernel objects are acquired (location, triangulation handle,
connectivity helper, normal array) and the trace contains no release at
all; on the skip path of a face without triangulation, the location and
the handle are likewise acquired and never released.  This contradicts
the requirement that every per-face resource be released before the
iterator advances. -/
theorem claim_C9_code_eval :
    tessellateTrace wShapeFwd =
      [.acquire .location, .acquire .triangulationHandle,
       .acquire .polyConnect, .acquire .normalArray] ∧
    (tessellateTrace wShapeFwd).filter isRelease = [] ∧
    tessellateTrace wEmptyShape = [.acquire .location, .acquire .triangulationHandle] ∧
    (tessellateTrace wEmptyShape).filter isRelease = [] := by decide

/-- C5.  Evaluating the index-width selection of `visualize` at a
triangulation with 70,000 nodes and one triangle: the mesh has more than
65,535 vertices, yet the code chooses the narrow 16-bit array (because it
tests `triangles.Length() * 3`, not the vertex count), and the written
index 69,999 reads back as 4,463 — truncated. -/
theorem claim_C5_code_eval :
    wTriBig.nodes.length = 70000 ∧
    65535 < wTriBig.nodes.length ∧
    visualizeFaceIndices wTriBig TopAbs_Orientation.forward =
      (IndexWidth.u16, [0, 1, 4463]) ∧
    storeIndex IndexWidth.u16 (70000 - 1) ≠ 70000 - 1 := by
  have hlen : wTriBig.nodes.length = 70000 := by
    have hnodes : wTriBig.nodes = List.replicate 70000 ⟨0, 0, 0⟩ := rfl
    rw [hnodes, List.length_replicate]
  refine ⟨hlen, by rw [hlen]; norm_num, ?_, by decide⟩
  rfl

theorem mapGet_mapSet_self {α : Type} (m : List (String × α)) (k : String) (v : α) :
    mapGet (mapSet m k v) k = some v := by
  induction m with
  | nil => simp [mapSet, mapGet]
  | cons p rest ih =>
      obtain ⟨k0, v0⟩ := p
      by_cases h : k0 = k
      · simp [mapSet, h, mapGet]
      · simp [mapSet, h, mapGet, ih]

theorem mapGet_mapSet_ne {α : Type} (m : List (String × α)) (k key : String) (v : α)
    (h : k ≠ key) : mapGet (mapSet m key v) k = mapGet m k := by
  induction m with
  | nil =>
      simp only [mapSet, mapGet]
      rw [if_neg (Ne.symm h)]
  | cons p rest ih =>
      obtain ⟨k0, v0⟩ := p
      by_cases h0 : k0 = key
      · subst h0
        simp only [mapSet, if_pos rfl, mapGet, if_neg (Ne.symm h)]
      · simp only [mapSet, if_neg h0, mapGet]
        by_cases h1 : k0 = k
        · simp only [if_pos h1]
        · simp only [if_neg h1]
          exact ih

theorem length_mapSet_of_none {α : Type} (m : List (String × α)) (key : String) (v : α)
    (h : mapGet m key = none) : (mapSet m key v).length = m.length + 1 := by
  induction m with
  | nil => rfl
  | cons p rest ih =>
      obtain ⟨k0, v0⟩ := p
      by_cases h0 : k0 = key
      · rw [mapGet, if_pos h0] at h
        cases h
      · rw [mapGet, if_neg h0] at h
        simp only [mapSet, if_neg h0, List.length_cons, ih h]

theorem buildLibrary_succ {G : Type} (g : G) (n : Nat) :
    buildLibrary g (n + 1) =
      mapSet (buildLibrary g n) (variantKey n) ⟨g, metadataOf n⟩ := by
  unfold buildLibrary
  rw [List.range_succ, List.foldl_append]
  rfl

set_option maxRecDepth 100000 in
/-- Computational check: reading the loop index back out of each of the
1000 build-time identifiers recovers the index, so the key derivation is
injective on `[0, 1000)`. -/
theorem keyExtract_all :
    ((List.range 1000).all fun i => keyExtract (variantKey i) == i) = true := by decide

set_option maxRecDepth 100000 in
/-- Computational check: every build-time identifier carries a two-digit
length category of at least 40 at positions 6-7. -/
theorem libraryKeys_look :
    ((List.range 1000).all fun i => looksLikeLibraryKey (variantKey i)) = true := by decide

set_option maxRecDepth 100000 in
/-- Computational check: no identifier derived from a negative hash in
`[-999, -1]` looks like a build-time identifier. -/
theorem negativeIds_look :
    ((List.range 999).all fun k => !looksLikeLibraryKey (variantIdOfHash (Int.negSucc k))) =
      true := by decide

theorem keyExtract_variantKey {i : Nat} (h : i < 1000) : keyExtract (variantKey i) = i := by
  have hall := List.all_eq_true.mp keyExtract_all i (List.mem_range.mpr h)
  simpa using hall

theorem variantKey_inj {i j : Nat} (hi : i < 1000) (hj : j < 1000)
    (h : variantKey i = variantKey j) : i = j := by
  have h1 := keyExtract_variantKey hi
  have h2 := keyExtract_variantKey hj
  rw [h] at h1
  omega

theorem looksLike_variantKey {i : Nat} (h : i < 1000) :
    looksLikeLibraryKey (variantKey i) = true :=
  List.all_eq_true.mp libraryKeys_look i (List.mem_range.mpr h)

theorem not_looksLike_negSucc {k : Nat} (h : k < 999) :
    looksLikeLibraryKey (variantIdOfHash (Int.negSucc k)) = false := by
  have hall := List.all_eq_true.mp negativeIds_look k (List.mem_range.mpr h)
  simpa using hall

/-- The 1000 variant identifiers inserted at build time are pairwise
distinct. -/
theorem variantKeys_nodup : ((List.range 1000).map variantKey).Nodup := by
  refine List.Nodup.map_on ?_ (List.nodup_range 1000)
  intro i hi j hj hij
  exact variantKey_inj (List.mem_range.mp hi) (List.mem_range.mp hj) hij

theorem buildLibrary_get {G : Type} (g : G) :
    ∀ n, n ≤ 1000 → ∀ i, i < n →
      mapGet (buildLibrary g n) (variantKey i) = some ⟨g, metadataOf i⟩ := by
  intro n
  induction n with
  | zero => intro _ i hi; omega
  | succ n ih =>
      intro hn i hi
      rw [buildLibrary_succ]
      by_cases h : i = n
      · subst h
        rw [mapGet_mapSet_self]
      · rw [mapGet_mapSet_ne]
        · exact ih (by omega) i (by omega)
        · intro heq
          exact h (variantKey_inj (by omega) (by omega) heq)

theorem buildLibrary_get_none {G : Type} (g : G) :
    ∀ n, ∀ s : String, (∀ i, i < n → s ≠ variantKey i) →
      mapGet (buildLibrary g n) s = none := by
  intro n
  induction n with
  | zero => intro s _; rfl
  | succ n ih =>
      intro s hs
      rw [buildLibrary_succ, mapGet_mapSet_ne _ _ _ _ (hs n (by omega))]
      exact ih s fun i hi => hs i (by omega)

theorem buildLibrary_length {G : Type} (g : G) :
    ∀ n, n ≤ 1000 → (buildLibrary g n).length = n := by
  intro n
  induction n with
  | zero => intro _; rfl
  | succ n ih =>
      intro hn
      rw [buildLibrary_succ, length_mapSet_of_none, ih (by omega)]
      apply buildLibrary_get_none
      intro i hi heq
      have := variantKey_inj (show n < 1000 by omega) (show i < 1000 by omega) heq
      omega

theorem toString_intOfNat (m : Nat) : toString ((m : Nat) : Int) = toString m := rfl

/-- For a nonnegative hash value the identifier reconstructed at lookup
time coincides with the build-time identifier: truncating division and
remainder agree with the natural-number operations there. -/
theorem variantIdOfHash_natCast (n : Nat) : variantIdOfHash (n : Int) = variantKey n := by
  have h1 : (n : Int).fdiv 20 = ((n / 20 : Nat) : Int) := (Int.ofNat_fdiv n 20).symm
  have h2 : (n : Int).tmod 8 = ((n % 8 : Nat) : Int) := rfl
  have h3 : (n : Int).tmod 50 = ((n % 50 : Nat) : Int) := rfl
  have h4 : (n : Int).fdiv 100 = ((n / 100 : Nat) : Int) := (Int.ofNat_fdiv n 100).symm
  have e1 : (n : Int).fdiv 20 + 40 = ((n / 20 + 40 : Nat) : Int) := by
    rw [h1]
    push_cast
    ring
  have e2 : 30 + (n : Int).tmod 8 * 3 = ((30 + n % 8 * 3 : Nat) : Int) := by
    rw [h2]
    push_cast
    ring
  have e4 : (n : Int).fdiv 100 = ((n / 100 : Nat) : Int) := h4
  unfold variantIdOfHash variantKey
  rw [e1, e2, h3, e4, toString_intOfNat, toString_intOfNat, toString_intOfNat,
    toString_intOfNat]

/-- Evaluation shape of `instantiateJoistFromLibrary`: everything after
the hash is a function of the derived identifier. -/
theorem instantiate_eval {G : Type} (lib : List (String × LibEntry G)) (j b f : Int) :
    instantiateJoistFromLibrary lib j b f =
      match mapGet lib (variantIdOfHash (structuralHash j b f)) with
      | none => .error (notFoundMessage (variantIdOfHash (structuralHash j b f)))
      | some entry =>
          .ok ⟨entry.geometry, entry.metadata, variantIdOfHash (structuralHash j b f)⟩ := rfl

/-- C7.  `instantiateJoistFromLibrary` fails exactly when the derived
variant identifier is absent from the library map, its error message names
that identifier, and when the key is present the stored record itself is
returned — never a substitute.  The embedded function takes the library as
a value and returns only the result: the source body contains no write to
`JOIST_LIBRARY`, so the library state is unchanged by a call. -/
theorem claim_C7 {G : Type} (lib : List (String × LibEntry G)) (j b f : Int) :
    (mapGet lib (variantIdOfHash (structuralHash j b f)) = none →
      instantiateJoistFromLibrary lib j b f =
        .error (notFoundMessage (variantIdOfHash (structuralHash j b f)))) ∧
    (∀ entry, mapGet lib (variantIdOfHash (structuralHash j b f)) = some entry →
      instantiateJoistFromLibrary lib j b f =
        .ok ⟨entry.geometry, entry.metadata, variantIdOfHash (structuralHash j b f)⟩) ∧
    (∀ msg, instantiateJoistFromLibrary lib j b f = .error msg →
      mapGet lib (variantIdOfHash (structuralHash j b f)) = none ∧
      msg = notFoundMessage (variantIdOfHash (structuralHash j b f))) := by
  rw [instantiate_eval]
  cases hm : mapGet lib (variantIdOfHash (structuralHash j b f)) with
  | none =>
      refine ⟨fun _ => rfl, ?_, ?_⟩
      · intro entry he
        cases he
      · intro msg hmsg
        cases hmsg
        exact ⟨rfl, rfl⟩
  | some entry0 =>
      refine ⟨?_, ?_, ?_⟩
      · intro hc
        cases hc
      · intro entry he
        cases he
        rfl
      · intro msg hmsg
        cases hmsg

/-- C4.  For nonnegative integer arguments the weighted hash lands in
`[0, 1000)`, the library built from one shared geometry holds exactly the
record `{geometry := g, metadata := metadataOf h}` under the build-time
key of that hash, `instantiateJoistFromLibrary` returns exactly that
stored record (with the derived identifier), and any two argument triples
with the same hash receive the same result — the same stored record. -/
theorem claim_C4 {G : Type} (g : G) (j b f : Int)
    (hj : 0 ≤ j) (hb : 0 ≤ b) (hf : 0 ≤ f) :
    0 ≤ structuralHash j b f ∧
    mapGet (initializeJoistLibrary g) (variantKey (structuralHash j b f).toNat) =
      some ⟨g, metadataOf (structuralHash j b f).toNat⟩ ∧
    instantiateJoistFromLibrary (initializeJoistLibrary g) j b f =
      .ok ⟨g, metadataOf (structuralHash j b f).toNat,
        variantKey (structuralHash j b f).toNat⟩ ∧
    (∀ j2 b2 f2 : Int, structuralHash j2 b2 f2 = structuralHash j b f →
      instantiateJoistFromLibrary (initializeJoistLibrary g) j2 b2 f2 =
        instantiateJoistFromLibrary (initializeJoistLibrary g) j b f) := by
  have hsum : 0 ≤ j * 7 + b * 23 + f * 41 := by omega
  have hh0 : 0 ≤ structuralHash j b f := Int.tmod_nonneg _ hsum
  have hhlt : structuralHash j b f < 1000 :=
    Int.tmod_lt_of_pos _ (by norm_num)
  obtain ⟨n, hn⟩ : ∃ n : Nat, structuralHash j b f = (n : Int) :=
    ⟨(structuralHash j b f).toNat, (Int.toNat_of_nonneg hh0).symm⟩
  have hnn : (structuralHash j b f).toNat = n := by omega
  have hnlt : n < 1000 := by omega
  have hid : variantIdOfHash (structuralHash j b f) = variantKey n := by
    rw [hn, variantIdOfHash_natCast]
  have hget := buildLibrary_get g 1000 (le_refl 1000) n hnlt
  have hinit : initializeJoistLibrary g = buildLibrary g 1000 := rfl
  rw [hnn]
  refine ⟨hh0, by rw [hinit]; exact hget, ?_, ?_⟩
  · rw [instantiate_eval, hid, hinit, hget]
  · intro j2 b2 f2 heq
    rw [instantiate_eval, instantiate_eval, heq]

/-- C4, instantiated at the argument triple `(0, 0, 0)` over a `Nat`
geometry value. -/
theorem claim_C4_witness :
    ((0 : Int) ≤ 0 ∧ (0 : Int) ≤ 0 ∧ (0 : Int) ≤ 0) ∧
    (0 ≤ structuralHash 0 0 0 ∧
     mapGet (initializeJoistLibrary (0 : Nat)) (variantKey (structuralHash 0 0 0).toNat) =
       some ⟨0, metadataOf (structuralHash 0 0 0).toNat⟩ ∧
     instantiateJoistFromLibrary (initializeJoistLibrary (0 : Nat)) 0 0 0 =
       .ok ⟨0, metadataOf (structuralHash 0 0 0).toNat,
         variantKey (structuralHash 0 0 0).toNat⟩ ∧
     (∀ j2 b2 f2 : Int, structuralHash j2 b2 f2 = structuralHash 0 0 0 →
       instantiateJoistFromLibrary (initializeJoistLibrary (0 : Nat)) j2 b2 f2 =
         instantiateJoistFromLibrary (initializeJoistLibrary (0 : Nat)) 0 0 0)) :=
  ⟨⟨le_refl 0, le_refl 0, le_refl 0⟩,
   claim_C4 (0 : Nat) 0 0 0 (le_refl 0) (le_refl 0) (le_refl 0)⟩

/-- C6.  The build loop inserts 1000 pairwise distinct identifiers, so
after `initializeJoistLibrary` the map holds exactly 1000 entries and
`getLibraryStats` reports 1000.  `instantiateJoistFromLibrary` and
`getLibraryStats` are embedded as pure functions of the library because
their source bodies never write to `JOIST_LIBRARY`: no call can add,
remove or replace an entry, the statistics stay at 1000, and every call
`instantiateJoistFromLibrary(0,0,0)` returns the one record stored under
`variantKey 0`, whose geometry field is the single shared geometry `g`. -/
theorem claim_C6 {G : Type} (g : G) :
    ((List.range 1000).map variantKey).Nodup ∧
    (initializeJoistLibrary g).length = 1000 ∧
    (getLibraryStats (initializeJoistLibrary g)).totalVariants = 1000 ∧
    instantiateJoistFromLibrary (initializeJoistLibrary g) 0 0 0 =
      .ok ⟨g, metadataOf 0, variantKey 0⟩ := by
  have hlen := buildLibrary_length g 1000 (le_refl 1000)
  have hinit : initializeJoistLibrary g = buildLibrary g 1000 := rfl
  have hstats : (getLibraryStats (initializeJoistLibrary g)).totalVariants =
      (initializeJoistLibrary g).length := by
    simp only [getLibraryStats]
  refine ⟨variantKeys_nodup, by rw [hinit]; exact hlen,
    by rw [hstats, hinit]; exact hlen, ?_⟩
  have h000 : structuralHash 0 0 0 = ((0 : Nat) : Int) := rfl
  have hid : variantIdOfHash (structuralHash 0 0 0) = variantKey 0 := by
    rw [h000, variantIdOfHash_natCast]
  rw [instantiate_eval, hid, hinit,
    buildLibrary_get g 1000 (le_refl 1000) 0 (by norm_num)]

/-- The truncating remainder of a negative non-multiple of 1000 lies in
`[-999, -1]`. -/
theorem tmod_1000_of_neg {a : Int} (ha : a < 0) (hnd : ¬ ((1000 : Int) ∣ a)) :
    -999 ≤ a.tmod 1000 ∧ a.tmod 1000 ≤ -1 := by
  match a, ha with
  | Int.negSucc m, _ =>
    have hdef : (Int.negSucc m).tmod 1000 = -(((m + 1) % 1000 : Nat) : Int) := rfl
    have hlt : (m + 1) % 1000 < 1000 := Nat.mod_lt _ (by norm_num)
    have hne : (m + 1) % 1000 ≠ 0 := by
      intro h0
      apply hnd
      have hdvd : 1000 ∣ (m + 1) := Nat.dvd_of_mod_eq_zero h0
      have ha2 : Int.negSucc m = -(((m + 1 : Nat) : Nat) : Int) := by
        rw [Int.negSucc_eq]
        push_cast
        ring
      rw [ha2]
      exact Int.dvd_neg.mpr (Int.natCast_dvd_natCast.mpr hdvd)
    rw [hdef]
    omega

theorem exists_negSucc {h : Int} (hneg : h < 0) : ∃ k, h = Int.negSucc k := by
  match h with
  | Int.ofNat n => exact absurd hneg (not_lt.mpr (Int.ofNat_nonneg n))
  | Int.negSucc k => exact ⟨k, rfl⟩

/-- C10.  A negative weighted sum that is not a multiple of 1000 produces
a negative hash via the sign-following JS `%`; the identifier rebuilt from
it matches none of the 1000 build-time identifiers, so
`instantiateJoistFromLibrary` throws the not-found error instead of
returning a record. -/
theorem claim_C10 {G : Type} (g : G) (j b f : Int)
    (hneg : j * 7 + b * 23 + f * 41 < 0)
    (hnd : ¬ ((1000 : Int) ∣ (j * 7 + b * 23 + f * 41))) :
    structuralHash j b f < 0 ∧
    (∀ i, i < 1000 → variantIdOfHash (structuralHash j b f) ≠ variantKey i) ∧
    instantiateJoistFromLibrary (initializeJoistLibrary g) j b f =
      .error (notFoundMessage (variantIdOfHash (structuralHash j b f))) := by
  have hb2 := tmod_1000_of_neg hneg hnd
  have hh : structuralHash j b f = (j * 7 + b * 23 + f * 41).tmod 1000 := rfl
  have hlt : structuralHash j b f < 0 := by
    rw [hh]
    omega
  have hge : -999 ≤ structuralHash j b f := by
    rw [hh]
    omega
  obtain ⟨k, hk⟩ := exists_negSucc hlt
  have hk999 : k < 999 := by
    rw [hk, Int.negSucc_eq] at hge
    omega
  have hlook : looksLikeLibraryKey (variantIdOfHash (structuralHash j b f)) = false := by
    rw [hk]
    exact not_looksLike_negSucc hk999
  have hne : ∀ i, i < 1000 → variantIdOfHash (structuralHash j b f) ≠ variantKey i := by
    intro i hi heq
    have h1 := looksLike_variantKey hi
    rw [← heq, hlook] at h1
    cases h1
  have hinit : initializeJoistLibrary g = buildLibrary g 1000 := rfl
  have hnone : mapGet (initializeJoistLibrary g)
      (variantIdOfHash (structuralHash j b f)) = none := by
    rw [hinit]
    exact buildLibrary_get_none g 1000 _ hne
  exact ⟨hlt, hne, by rw [instantiate_eval, hnone]⟩

/-- C10, instantiated at the argument triple `(-1, 0, 0)`, whose weighted
sum is `-7`. -/
theorem claim_C10_witness :
    ((-1 : Int) * 7 + 0 * 23 + 0 * 41 < 0 ∧
     ¬ ((1000 : Int) ∣ ((-1 : Int) * 7 + 0 * 23 + 0 * 41))) ∧
    (structuralHash (-1) 0 0 < 0 ∧
     (∀ i, i < 1000 → variantIdOfHash (structuralHash (-1) 0 0) ≠ variantKey i) ∧
     instantiateJoistFromLibrary (initializeJoistLibrary (0 : Nat)) (-1) 0 0 =
       .error (notFoundMessage (variantIdOfHash (structuralHash (-1) 0 0)))) :=
  ⟨⟨by norm_num, by norm_num⟩, claim_C10 (0 : Nat) (-1) 0 0 (by norm_num) (by norm_num)⟩
